import Mathlib

/-!
Verification development for the `webarchive` crate.

The crate has two source files. `src/lib.rs` declares the data model
(`WebResource`, `WebArchive`) together with its serde-derived plist
codec (field renames, `deny_unknown_fields`, `default`,
`empty_string_as_none` adapters, `serde_bytes` payloads) and the
`total_size` aggregation. `src/main.rs` contains the extraction logic:
`save` derives a file path from a resource URL and writes the bytes,
`save_archive` walks an archive tree depth first.

The embedding works at the level of the generic plist document (the
`plist::Value` tree). The byte-level XML and binary serializations are
the external plist crate and are out of scope for the core (spec
section 1); both decode to the same logical document, so the codec
properties are stated document-to-document. External collaborators
(the MIME extension table, the filesystem) are modelled as explicit
parameters (a lookup function, a failure oracle).
-/

set_option linter.unusedVariables false
set_option linter.unnecessarySeqFocus false

namespace Webarchive

/-- Generic plist document values, restricted to the variants the
schema uses: strings, binary data, arrays and dictionaries. A
dictionary is the ordered list of key and value pairs the
deserializer visits. -/
inductive PValue where
  | string : String → PValue
  | data : List Nat → PValue
  | array : List PValue → PValue
  | dict : List (String × PValue) → PValue

/-- Model of `WebResource` from src/lib.rs lines 147 to 196: raw data,
URL, optional frame name, MIME type, optional text encoding name and
an optional opaque response blob. -/
structure WebResource where
  data : List Nat
  url : String
  frame_name : Option String
  mime_type : String
  text_encoding_name : Option String
  response : Option (List Nat)
deriving DecidableEq

/-- Model of `WebArchive` from src/lib.rs lines 198 to 222: a main
resource, an optional subresource list, and an optional list of nested
subframe archives. -/
inductive WebArchive where
  | mk : WebResource → Option (List WebResource) → Option (List WebArchive) → WebArchive

/-- Accessor for the `main_resource` field. -/
def WebArchive.main_resource : WebArchive → WebResource
  | .mk mr _ _ => mr

/-- Accessor for the `subresources` field. -/
def WebArchive.subresources : WebArchive → Option (List WebResource)
  | .mk _ s _ => s

/-- Accessor for the `subframe_archives` field. -/
def WebArchive.subframe_archives : WebArchive → Option (List WebArchive)
  | .mk _ _ f => f

/-- Dictionary entry for an optional field: the plist serializer skips
the key entirely when the value is absent (visible in the doc test of
src/lib.rs, where `frame_name`, `response` and both archive lists are
`None` and their keys do not appear in the output). -/
def optEntry (key : String) : Option PValue → List (String × PValue)
  | some v => [(key, v)]
  | none => []

/-- Serialization of a `WebResource` into a plist dictionary, fields
in declaration order with their `serde(rename)` keys; `data` and
`response` serialize as binary payloads via `serde_bytes`. -/
def encodeResource (r : WebResource) : PValue :=
  .dict ([("WebResourceData", .data r.data), ("WebResourceURL", .string r.url)]
    ++ optEntry "WebResourceFrameName" (r.frame_name.map .string)
    ++ [("WebResourceMIMEType", .string r.mime_type)]
    ++ optEntry "WebResourceTextEncodingName" (r.text_encoding_name.map .string)
    ++ optEntry "WebResourceResponse" (r.response.map .data))

mutual
/-- Serialization of a `WebArchive`: the main resource always, then
the subresource and subframe archive lists only when present. -/
def encodeArchive : WebArchive → PValue
  | .mk mr subs frames =>
    .dict ([("WebMainResource", encodeResource mr)]
      ++ (match subs with
          | some rs => [("WebSubresources", .array (rs.map encodeResource))]
          | none => [])
      ++ (match frames with
          | some fs => [("WebSubframeArchives", .array (encodeArchiveList fs))]
          | none => []))
termination_by structural a => a

/-- Serialization of a list of subframe archives. -/
def encodeArchiveList : List WebArchive → List PValue
  | [] => []
  | a :: as => encodeArchive a :: encodeArchiveList as
termination_by structural as => as
end

/-- Errors the serde deserializer reports: an unrecognized key under
`deny_unknown_fields`, a duplicated key, a missing required key, or a
value of the wrong plist type. All of these are schema-shape failures
at decode time. -/
inductive SchemaError where
  | unknownField : String → SchemaError
  | duplicateField : String → SchemaError
  | missingField : String → SchemaError
  | typeError : SchemaError
deriving DecidableEq

/-- Model of the `ruma_serde::empty_string_as_none` adapter used for
`frame_name` and `text_encoding_name`: a string value decodes to
`none` when empty and to `some` otherwise; any other plist type is a
type error. -/
def emptyStringAsNone : PValue → Except SchemaError (Option String)
  | .string s => .ok (if s = "" then none else some s)
  | _ => .error .typeError

/-- Partial field assignment built up while the deserializer walks a
resource dictionary. The outer `Option` records whether the key was
seen (for duplicate detection); for the two adapter fields the inner
value is the normalized optional string. -/
structure ResState where
  data : Option (List Nat)
  url : Option String
  frame_name : Option (Option String)
  mime_type : Option String
  text_encoding_name : Option (Option String)
  response : Option (List Nat)

/-- Entry loop of the derived `WebResource` deserializer: visit each
key in order, reject duplicates and unknown keys, check the plist type
of each value. -/
def decodeResourceEntries : List (String × PValue) → ResState → Except SchemaError ResState
  | [], st => .ok st
  | (k, v) :: rest, st =>
    if k = "WebResourceData" then
      match st.data, v with
      | some _, _ => .error (.duplicateField k)
      | none, .data bs => decodeResourceEntries rest { st with data := some bs }
      | none, _ => .error .typeError
    else if k = "WebResourceURL" then
      match st.url, v with
      | some _, _ => .error (.duplicateField k)
      | none, .string s => decodeResourceEntries rest { st with url := some s }
      | none, _ => .error .typeError
    else if k = "WebResourceFrameName" then
      match st.frame_name with
      | some _ => .error (.duplicateField k)
      | none =>
        match emptyStringAsNone v with
        | .error e => .error e
        | .ok o => decodeResourceEntries rest { st with frame_name := some o }
    else if k = "WebResourceMIMEType" then
      match st.mime_type, v with
      | some _, _ => .error (.duplicateField k)
      | none, .string s => decodeResourceEntries rest { st with mime_type := some s }
      | none, _ => .error .typeError
    else if k = "WebResourceTextEncodingName" then
      match st.text_encoding_name with
      | some _ => .error (.duplicateField k)
      | none =>
        match emptyStringAsNone v with
        | .error e => .error e
        | .ok o => decodeResourceEntries rest { st with text_encoding_name := some o }
    else if k = "WebResourceResponse" then
      match st.response, v with
      | some _, _ => .error (.duplicateField k)
      | none, .data bs => decodeResourceEntries rest { st with response := some bs }
      | none, _ => .error .typeError
    else .error (.unknownField k)

/-- Initial state with every field unseen. -/
def initResState : ResState := ⟨none, none, none, none, none, none⟩

/-- Deserialization of a `WebResource` from a plist value: the value
must be a dictionary; after the entry loop, `data`, `url` and
`mime_type` are required, the `default` fields fall back to `none`
when their key never appeared. -/
def decodeResource : PValue → Except SchemaError WebResource
  | .dict entries =>
    match decodeResourceEntries entries initResState with
    | .error e => .error e
    | .ok st =>
      match st.data with
      | none => .error (.missingField "WebResourceData")
      | some bs =>
        match st.url with
        | none => .error (.missingField "WebResourceURL")
        | some u =>
          match st.mime_type with
          | none => .error (.missingField "WebResourceMIMEType")
          | some m =>
            .ok ⟨bs, u, st.frame_name.getD none, m, st.text_encoding_name.getD none, st.response⟩
  | _ => .error .typeError

/-- Deserialization of a sequence of resources, failing on the first
element that fails. -/
def decodeResourceList : List PValue → Except SchemaError (List WebResource)
  | [] => .ok []
  | v :: vs =>
    match decodeResource v with
    | .error e => .error e
    | .ok r =>
      match decodeResourceList vs with
      | .error e => .error e
      | .ok rs => .ok (r :: rs)

/-- Action of one archive dictionary entry on the partial decode
state (main resource, subresource list, subframe archive list seen so
far), as the derived `WebArchive` deserializer performs it: duplicate
keys and unrecognized keys (the `deny_unknown_fields` policy) are
errors, the two list keys require plist arrays. The result of decoding
the entry value as a nested archive list is received as the
`framesRes` argument (computed by the caller from `v`) and is consumed
only in the WebSubframeArchives branch, so the outcome is the same as
decoding it there. -/
def archiveEntryStep (k : String) (v : PValue) (m : Option WebResource)
    (s : Option (List WebResource)) (f : Option (List WebArchive))
    (framesRes : Except SchemaError (List WebArchive)) :
    Except SchemaError
      (Option WebResource × Option (List WebResource) × Option (List WebArchive)) :=
  if k = "WebMainResource" then
    match m with
    | some _ => .error (.duplicateField k)
    | none =>
      match decodeResource v with
      | .error e => .error e
      | .ok r => .ok (some r, s, f)
  else if k = "WebSubresources" then
    match s with
    | some _ => .error (.duplicateField k)
    | none =>
      match v with
      | .array vs =>
        match decodeResourceList vs with
        | .error e => .error e
        | .ok rs => .ok (m, some rs, f)
      | _ => .error .typeError
  else if k = "WebSubframeArchives" then
    match f with
    | some _ => .error (.duplicateField k)
    | none =>
      match framesRes with
      | .error e => .error e
      | .ok fs => .ok (m, s, some fs)
  else .error (.unknownField k)

mutual
/-- Deserialization of a `WebArchive` from a plist value: a dictionary
whose entries are visited by `decodeArchiveEntries`; the main resource
is required. -/
def decodeArchive : PValue → Except SchemaError WebArchive
  | .dict entries =>
    match decodeArchiveEntries entries none none none with
    | .error e => .error e
    | .ok (m, s, f) =>
      match m with
      | none => .error (.missingField "WebMainResource")
      | some mr => .ok (.mk mr s f)
  | _ => .error .typeError
termination_by structural v => v

/-- Entry loop of the derived `WebArchive` deserializer: each entry is
processed by `archiveEntryStep` and the loop continues on the updated
state; the nested archive list decode for the entry value is computed
here so that the recursion stays structural. -/
def decodeArchiveEntries : List (String × PValue) → Option WebResource →
    Option (List WebResource) → Option (List WebArchive) →
    Except SchemaError (Option WebResource × Option (List WebResource) × Option (List WebArchive))
  | [], m, s, f => .ok (m, s, f)
  | (k, v) :: rest, m, s, f =>
    match archiveEntryStep k v m s f (decodeFramesValue v) with
    | .error e => .error e
    | .ok (m2, s2, f2) => decodeArchiveEntries rest m2 s2 f2
termination_by structural entries => entries

/-- Decode of an entry value as a list of nested archives: the value
must be a plist array, whose elements decode recursively. -/
def decodeFramesValue : PValue → Except SchemaError (List WebArchive)
  | .array vs => decodeArchiveList vs
  | _ => .error .typeError
termination_by structural v => v

/-- Deserialization of a sequence of nested archives, failing on the
first element that fails. -/
def decodeArchiveList : List PValue → Except SchemaError (List WebArchive)
  | [] => .ok []
  | v :: vs =>
    match decodeArchive v with
    | .error e => .error e
    | .ok a =>
      match decodeArchiveList vs with
      | .error e => .error e
      | .ok as => .ok (a :: as)
termination_by structural vs => vs
end

/-- Sum of the data lengths of a list of resources. -/
def sumDataLen (rs : List WebResource) : Nat :=
  (rs.map (fun r => r.data.length)).sum

mutual
/-- Model of `WebArchive::total_size` from src/lib.rs lines 270 to
288: length of the main resource data, plus the data lengths of the
subresources, plus the recursive totals of the subframe archives,
with absent lists contributing zero. -/
def total_size : WebArchive → Nat
  | .mk mr subs frames =>
    mr.data.length +
      (match subs with
       | some rs => sumDataLen rs
       | none => 0) +
      (match frames with
       | some fs => totalSizeList fs
       | none => 0)
termination_by structural a => a

/-- Sum of `total_size` over a list of subframe archives. -/
def totalSizeList : List WebArchive → Nat
  | [] => 0
  | a :: as => total_size a + totalSizeList as
termination_by structural as => as
end

mutual
/-- Pre-order listing of every resource in an archive tree: the main
resource, then the subresources in order, then the resources of each
subframe archive in order. This is the visit order of `save_archive`
in src/main.rs. -/
def resourceList : WebArchive → List WebResource
  | .mk mr subs frames =>
    mr :: ((match subs with
            | some rs => rs
            | none => []) ++
           (match frames with
            | some fs => resourceListList fs
            | none => []))
termination_by structural a => a

/-- Concatenated pre-order listings of a list of archives. -/
def resourceListList : List WebArchive → List WebResource
  | [] => []
  | a :: as => resourceList a ++ resourceListList as
termination_by structural as => as
end

/-- Resource predicate: neither adapter field holds a present but
empty string. Such a value cannot survive the wire format, because
the encoder writes `some ""` as an empty string and the decoder
normalizes an empty string back to `none`. -/
def WebResource.noEmptyOpt (r : WebResource) : Bool :=
  !(r.frame_name == some "") && !(r.text_encoding_name == some "")

mutual
/-- Archive predicate: no resource anywhere in the tree has a present
but empty `frame_name` or `text_encoding_name`. -/
def noEmptyArchive : WebArchive → Bool
  | .mk mr subs frames =>
    mr.noEmptyOpt &&
      (match subs with
       | some rs => rs.all WebResource.noEmptyOpt
       | none => true) &&
      (match frames with
       | some fs => noEmptyArchiveList fs
       | none => true)
termination_by structural a => a

/-- List form of `noEmptyArchive`. -/
def noEmptyArchiveList : List WebArchive → Bool
  | [] => true
  | a :: as => noEmptyArchive a && noEmptyArchiveList as
termination_by structural as => as
end

/-- Keys of a dictionary value, empty for the other variants. -/
def dictKeys : PValue → List String
  | .dict entries => entries.map (fun p => p.1)
  | _ => []

/-- Test for a key belonging to the resource schema. -/
def resourceKeyOk (k : String) : Bool :=
  k = "WebResourceData" || k = "WebResourceURL" || k = "WebResourceFrameName" ||
    k = "WebResourceMIMEType" || k = "WebResourceTextEncodingName" ||
    k = "WebResourceResponse"

/-- Test for a resource dictionary containing a key outside the
resource schema. -/
def resourceUnknown : PValue → Bool
  | .dict entries => entries.any (fun p => !(resourceKeyOk p.1))
  | _ => false

/-- Test for one archive entry being a schema violation: a key outside
the archive schema, or a violation inside the value of a recognized
key; the verdict for the value as a nested archive list is received as
`framesUnknown` and consumed only in the WebSubframeArchives branch. -/
def archiveEntryUnknown (k : String) (v : PValue) (framesUnknown : Bool) : Bool :=
  if k = "WebMainResource" then resourceUnknown v
  else if k = "WebSubresources" then
    match v with
    | .array vs => vs.any resourceUnknown
    | _ => false
  else if k = "WebSubframeArchives" then framesUnknown
  else true

mutual
/-- Test for an archive document containing, at any depth the schema
reaches, a key outside the defined field sets. -/
def archiveUnknown : PValue → Bool
  | .dict entries => archiveEntriesUnknown entries
  | _ => false
termination_by structural v => v

/-- Entry form of `archiveUnknown`. -/
def archiveEntriesUnknown : List (String × PValue) → Bool
  | [] => false
  | (k, v) :: rest =>
    archiveEntryUnknown k v (framesUnknownValue v) || archiveEntriesUnknown rest
termination_by structural entries => entries

/-- Verdict for an entry value considered as a nested archive list. -/
def framesUnknownValue : PValue → Bool
  | .array vs => archiveListUnknown vs
  | _ => false
termination_by structural v => v

/-- List form of `archiveUnknown`. -/
def archiveListUnknown : List PValue → Bool
  | [] => false
  | v :: vs => archiveUnknown v || archiveListUnknown vs
termination_by structural vs => vs
end

/-- Split of a character list at the first occurrence of two
consecutive slashes, returning the parts before and after it, or
`none` when the separator does not occur. This models the Rust
`splitn(2, "//")` call in `save` in src/main.rs. -/
def splitSlashSlash : List Char → Option (List Char × List Char)
  | '/' :: '/' :: rest => some ([], rest)
  | [] => none
  | c :: rest =>
    match splitSlashSlash rest with
    | some (pre, post) => some (c :: pre, post)
    | none => none

/-- The list of pieces `splitn(2, "//")` yields on a string: the parts
before and after the first separator, or the whole string when the
separator is absent. The iterator always yields at least one piece. -/
def splitnTwo (s : String) : List String :=
  match splitSlashSlash s.data with
  | some (pre, post) => [String.mk pre, String.mk post]
  | none => [s]

/-- Last piece of the split, the value `last()` returns in `save`;
`none` would make the `expect` panic fire. -/
def remainderOpt (s : String) : Option String :=
  (splitnTwo s).getLast?

/-- URL remainder used as the relative file path, with the panic
branch mapped to the empty string (it is proved unreachable). -/
def remainder (s : String) : String :=
  (remainderOpt s).getD ""

/-- Test for a character list ending in a slash, the Rust
`ends_with('/')` check on the remainder. -/
def endsWithSlash (s : String) : Bool :=
  match s.data.getLast? with
  | some c => c = '/'
  | none => false

/-- Extension guess of `save`: `None` from the MIME table falls back
to "txt"; a present table entry yields its last element, and an empty
entry would make the `expect` panic fire, modelled as `none`. The
table itself (the mime_guess crate) is an external collaborator and is
a parameter. -/
def guessedExt (table : String → Option (List String)) (m : String) : Option String :=
  match table m with
  | none => some "txt"
  | some exts => exts.getLast?

/-- Extension choice as the spec words it: the last candidate the
table returns, with "txt" as the fallback when the table has no
match. -/
def extFor (table : String → Option (List String)) (m : String) : String :=
  match table m with
  | none => "txt"
  | some exts => exts.getLast?.getD "txt"

/-- Model of `Path::join` on Unix: an absolute right side replaces the
base path, otherwise the pieces are joined with a slash. -/
def pathJoin (base rel : String) : String :=
  if rel.data.head? = some '/' then rel else base ++ "/" ++ rel

/-- Path derivation of `save` in src/main.rs lines 6 to 30: take the
URL remainder after the first "//", synthesize a file name when it
ends in a slash, and join it onto the destination directory. The
result is `none` exactly when the empty-extension panic fires. -/
def derivePath (table : String → Option (List String)) (r : WebResource)
    (inside : String) : Option String :=
  if endsWithSlash (remainder r.url) then
    match guessedExt table r.mime_type with
    | none => none
    | some ext => some (pathJoin inside (remainder r.url ++ "_unnamed_index." ++ ext))
  else some (pathJoin inside (remainder r.url))

/-- Model of `save`: the failure oracle stands for the filesystem; a
successful save emits one write event carrying the directory it was
given and the resource written. -/
def save (fails : WebResource → Bool) (inside : String) (r : WebResource) :
    List (String × WebResource) × Bool :=
  if fails r then ([], false) else ([(inside, r)], true)

/-- Save loop over a subresource list: in order, stopping at the first
failure (the source wraps each call in `expect`, so a failure aborts
the run). -/
def saveList (fails : WebResource → Bool) (inside : String) :
    List WebResource → List (String × WebResource) × Bool
  | [] => ([], true)
  | r :: rs =>
    let m := save fails inside r
    if m.2 then
      let t := saveList fails inside rs
      (m.1 ++ t.1, t.2)
    else m

mutual
/-- Model of `save_archive` from src/main.rs lines 38 to 57: save the
main resource (propagating failure), then each subresource in order,
then each subframe archive in order, all against the same directory;
any failure stops all remaining work. The result is the ordered list
of successful write events and the success flag. -/
def save_archive (fails : WebResource → Bool) (inside : String) :
    WebArchive → List (String × WebResource) × Bool
  | .mk mr subs frames =>
    let m := save fails inside mr
    if m.2 then
      let s := match subs with
               | some rs => saveList fails inside rs
               | none => ([], true)
      if s.2 then
        let t := match frames with
                 | some fs => saveArchiveList fails inside fs
                 | none => ([], true)
        (m.1 ++ s.1 ++ t.1, t.2)
      else (m.1 ++ s.1, false)
    else m
termination_by structural a => a

/-- Save loop over a subframe archive list, stopping at the first
failed subtree. -/
def saveArchiveList (fails : WebResource → Bool) (inside : String) :
    List WebArchive → List (String × WebResource) × Bool
  | [] => ([], true)
  | a :: as =>
    let h := save_archive fails inside a
    if h.2 then
      let t := saveArchiveList fails inside as
      (h.1 ++ t.1, t.2)
    else h
termination_by structural as => as
end

/-- Left fold resolving ".." path segments against a reversed
accumulator, used to judge where a derived path actually lands. -/
def resolveSegs (acc : List String) : List String → List String
  | [] => acc.reverse
  | s :: rest => if s = ".." then resolveSegs acc.tail rest else resolveSegs (s :: acc) rest

/-- Resolved segment list of a slash-separated path. -/
def resolvedSegs (p : String) : List String :=
  resolveSegs [] (p.data.splitOn '/' |>.map String.mk)


/-! Induction principle for the nested archive tree. -/

theorem WebArchive.nestedInd (P : WebArchive → Prop)
    (h : ∀ mr subs frames,
      (∀ fs, frames = some fs → ∀ a ∈ fs, P a) → P (.mk mr subs frames)) :
    ∀ a, P a := by
  have key : ∀ n a, sizeOf (a : WebArchive) = n → P a := by
    intro n
    induction n using Nat.strong_induction_on with
    | _ n ih =>
      intro a hn
      cases a with
      | mk mr subs frames =>
        apply h
        intro fs hfs b hb
        refine ih (sizeOf b) ?_ b rfl
        subst hn hfs
        have h1 := List.sizeOf_lt_of_mem hb
        simp only [WebArchive.mk.sizeOf_spec, Option.some.sizeOf_spec]
        omega
  exact fun a => key (sizeOf a) a rfl

/-! Claim C10: the scheme-stripping step is total. -/

theorem remainderOpt_isSome (s : String) : remainderOpt s = some (remainder s) := by
  unfold remainder remainderOpt splitnTwo
  cases h : splitSlashSlash s.data <;> simp

/-- C10: splitting the URL on the first "//" and taking the last piece
never fails, so the "File should have a protocol" panic branch of
`save` is unreachable; when "//" does not occur in the URL the whole
URL string is the remainder. -/
theorem C10_scheme_strip_total (url : String) :
    remainderOpt url = some (remainder url) ∧
    (splitSlashSlash url.data = none → remainder url = url) := by
  refine ⟨remainderOpt_isSome url, fun h => ?_⟩
  unfold remainder remainderOpt splitnTwo
  rw [h]
  rfl

/-- Witness for C10 at the concrete URL "about:hello", which contains
no "//" at all. -/
theorem C10_scheme_strip_total_witness :
    splitSlashSlash ("about:hello" : String).data = none ∧
    remainderOpt "about:hello" = some (remainder "about:hello") ∧
    remainder "about:hello" = "about:hello" :=
  ⟨by decide, (C10_scheme_strip_total "about:hello").1,
    (C10_scheme_strip_total "about:hello").2 (by decide)⟩

/-! Claim C8: the derived path can escape the destination directory. -/

/-- C8: the code does not guard against traversal. For the resource
URL "http://../secret" the remainder is "../secret", and `save` joins
it onto the base directory unchanged, producing "base/../secret"; the
".." segment resolves to a location outside the base directory. This
contradicts the guard the claim requires. -/
theorem C8_traversal_guard_missing (table : String → Option (List String)) :
    derivePath table ⟨[], "http://../secret", none, "text/plain", none, none⟩ "base"
      = some "base/../secret" ∧
    resolvedSegs "base/../secret" = ["secret"] ∧
    (resolvedSegs "base/../secret").head? ≠ some "base" :=
  ⟨rfl, by decide, by decide⟩

/-! Claim C5: filename inference for directory-like URLs. -/

/-- C5: when the URL remainder ends in a slash, the derived path joins
the remainder onto the base directory and appends the literal stem
"_unnamed_index." followed by the extension the MIME table selects
(last candidate, "txt" fallback); in particular the two example
resources of the claim land at example.com/assets/_unnamed_index.png
and example.com/a.png under the base directory. -/
theorem C5_filename_inference (table : String → Option (List String)) (base : String)
    (d1 d2 : List Nat) (fn1 fn2 te1 te2 : Option String) (rsp1 rsp2 : Option (List Nat))
    (hpng : extFor table "image/png" = "png") (hne : table "image/png" ≠ some []) :
    (∀ r : WebResource, endsWithSlash (remainder r.url) = true →
      table r.mime_type ≠ some [] →
      derivePath table r base
        = some (pathJoin base (remainder r.url ++ "_unnamed_index." ++ extFor table r.mime_type))) ∧
    derivePath table ⟨d1, "http://example.com/assets/", fn1, "image/png", te1, rsp1⟩ base
      = some (base ++ "/example.com/assets/_unnamed_index.png") ∧
    derivePath table ⟨d2, "http://example.com/a.png", fn2, "image/png", te2, rsp2⟩ base
      = some (base ++ "/example.com/a.png") := by
  have hext : guessedExt table "image/png" = some "png" := by
    unfold extFor at hpng
    unfold guessedExt
    cases htab : table "image/png" with
    | none => rw [htab] at hpng; simp at hpng
    | some exts =>
      rw [htab] at hpng hne
      simp only [] at hpng
      cases hlast : exts.getLast? with
      | none =>
        rw [List.getLast?_eq_none_iff] at hlast
        exact absurd (congrArg some hlast) hne
      | some x =>
        rw [hlast] at hpng
        simp at hpng
        simp [hlast, hpng]
  refine ⟨?_, ?_, ?_⟩
  · intro r hs htab
    unfold derivePath
    rw [if_pos hs]
    unfold guessedExt extFor
    cases h : table r.mime_type with
    | none => simp
    | some exts =>
      rw [h] at htab
      cases hlast : exts.getLast? with
      | none =>
        rw [List.getLast?_eq_none_iff] at hlast
        exact absurd (congrArg some hlast) htab
      | some x => simp [hlast]
  · have hrem : remainder "http://example.com/assets/" = "example.com/assets/" := rfl
    unfold derivePath
    rw [hrem, if_pos (show endsWithSlash "example.com/assets/" = true from rfl), hext]
    show some (pathJoin base "example.com/assets/_unnamed_index.png") = _
    unfold pathJoin
    rw [if_neg (by decide), String.append_assoc]
    rfl
  · have hrem : remainder "http://example.com/a.png" = "example.com/a.png" := rfl
    unfold derivePath
    rw [hrem, if_neg (show ¬endsWithSlash "example.com/a.png" = true from by decide)]
    unfold pathJoin
    rw [if_neg (by decide), String.append_assoc]
    rfl

/-- Witness for C5 with a one-entry MIME table sending image/png to
the single extension png and the base directory "out". -/
theorem C5_filename_inference_witness :
    extFor (fun m => if m = "image/png" then some ["png"] else none) "image/png" = "png" ∧
    (fun m => if m = "image/png" then some ["png"] else none) "image/png" ≠ some ([] : List String) ∧
    derivePath (fun m => if m = "image/png" then some ["png"] else none)
      ⟨[], "http://example.com/assets/", none, "image/png", none, none⟩ "out"
      = some ("out" ++ "/example.com/assets/_unnamed_index.png") ∧
    derivePath (fun m => if m = "image/png" then some ["png"] else none)
      ⟨[], "http://example.com/a.png", none, "image/png", none, none⟩ "out"
      = some ("out" ++ "/example.com/a.png") :=
  ⟨by decide, by decide,
    (C5_filename_inference (fun m => if m = "image/png" then some ["png"] else none) "out"
      [] [] none none none none none none (by decide) (by decide)).2.1,
    (C5_filename_inference (fun m => if m = "image/png" then some ["png"] else none) "out"
      [] [] none none none none none none (by decide) (by decide)).2.2⟩

/-! Claim C4: size aggregation. -/

theorem sumDataLen_append (l1 l2 : List WebResource) :
    sumDataLen (l1 ++ l2) = sumDataLen l1 + sumDataLen l2 := by
  simp [sumDataLen]

theorem totalSizeList_eq_sum (gs : List WebArchive)
    (H : ∀ a ∈ gs, total_size a = sumDataLen (resourceList a)) :
    totalSizeList gs = sumDataLen (resourceListList gs) := by
  induction gs with
  | nil => simp [totalSizeList, resourceListList, sumDataLen]
  | cons b bs ih =>
    rw [totalSizeList, resourceListList, sumDataLen_append,
      H b (by simp), ih (fun c hc => H c (by simp [hc]))]

theorem total_size_eq_sum : ∀ a : WebArchive,
    total_size a = sumDataLen (resourceList a) := by
  apply WebArchive.nestedInd
  intro mr subs frames IH
  have hTL : totalSizeList (frames.getD []) = sumDataLen (resourceListList (frames.getD [])) := by
    apply totalSizeList_eq_sum
    intro b hb
    cases frames with
    | none => simp at hb
    | some fs => exact IH fs rfl b hb
  clear IH
  cases subs <;> cases frames <;>
    simp_all [total_size.eq_def, resourceList.eq_def, totalSizeList,
      resourceListList, sumDataLen_append, sumDataLen] <;> omega

theorem totalSizeList_eq_map_sum (fs : List WebArchive) :
    totalSizeList fs = (fs.map total_size).sum := by
  induction fs with
  | nil => rfl
  | cons a as ih => rw [totalSizeList, List.map_cons, List.sum_cons, ih]

/-- C4: the total size of an archive is the length of the main
resource data, plus the sum of the subresource data lengths, plus the
sum of the recursively computed totals of the subframe archives, with
an absent list contributing zero; equivalently, it is the sum of the
data lengths of every resource in the tree. -/
theorem C4_size_aggregation (mr : WebResource) (subs : Option (List WebResource))
    (frames : Option (List WebArchive)) :
    total_size (.mk mr subs frames)
      = mr.data.length + sumDataLen (subs.getD [])
        + ((frames.getD []).map total_size).sum ∧
    total_size (.mk mr subs frames) = sumDataLen (resourceList (.mk mr subs frames)) := by
  refine ⟨?_, total_size_eq_sum _⟩
  cases subs <;> cases frames <;>
    simp [total_size.eq_def, totalSizeList_eq_map_sum, sumDataLen, Option.getD]

/-! Claim C6: fail-fast, ordered extraction. -/

theorem takeWhile_of_all {α : Type} (p : α → Bool) (l : List α)
    (h : l.all p = true) : l.takeWhile p = l :=
  List.takeWhile_eq_self_iff.mpr (by simpa [List.all_eq_true] using h)

theorem takeWhile_append_of_all {α : Type} (p : α → Bool) (l1 l2 : List α)
    (h : l1.all p = true) : (l1 ++ l2).takeWhile p = l1 ++ l2.takeWhile p := by
  induction l1 with
  | nil => simp
  | cons a as ih => simp_all [List.takeWhile_cons]

theorem takeWhile_append_of_stop {α : Type} (p : α → Bool) (l1 l2 : List α)
    (h : l1.all p = false) : (l1 ++ l2).takeWhile p = l1.takeWhile p := by
  induction l1 with
  | nil => simp at h
  | cons a as ih =>
    rw [List.cons_append, List.takeWhile_cons, List.takeWhile_cons]
    rw [List.all_cons] at h
    cases hpa : p a with
    | false => simp
    | true => rw [hpa] at h; simp only [Bool.true_and] at h; simp [ih h]

theorem all_pairMap (fails : WebResource → Bool) (inside : String) (rs : List WebResource) :
    ((rs.map (fun r => (inside, r))).all (fun p => !(fails p.2)))
      = rs.all (fun r => !(fails r)) := by
  induction rs <;> simp_all

theorem saveList_eq (fails : WebResource → Bool) (inside : String) (rs : List WebResource) :
    saveList fails inside rs
      = ((rs.map (fun r => (inside, r))).takeWhile (fun p => !(fails p.2)),
         rs.all (fun r => !(fails r))) := by
  induction rs with
  | nil => rfl
  | cons r rs ih =>
    rw [saveList, save]
    by_cases h : fails r
    · simp [h, List.takeWhile_cons]
    · simp [h, ih, List.takeWhile_cons]

theorem saveArchiveList_eq (fails : WebResource → Bool) (inside : String)
    (fs : List WebArchive)
    (H : ∀ a ∈ fs, save_archive fails inside a
      = (((resourceList a).map (fun r => (inside, r))).takeWhile (fun p => !(fails p.2)),
         (resourceList a).all (fun r => !(fails r)))) :
    saveArchiveList fails inside fs
      = (((resourceListList fs).map (fun r => (inside, r))).takeWhile (fun p => !(fails p.2)),
         (resourceListList fs).all (fun r => !(fails r))) := by
  induction fs with
  | nil => rfl
  | cons a as ih =>
    rw [saveArchiveList, H a (by simp), resourceListList, List.map_append, List.all_append]
    by_cases hall : (resourceList a).all (fun r => !(fails r)) = true
    · rw [hall]
      rw [takeWhile_of_all _ _ (by rw [all_pairMap]; exact hall)]
      rw [takeWhile_append_of_all _ _ _ (by rw [all_pairMap]; exact hall)]
      simp [ih (fun b hb => H b (by simp [hb]))]
    · rw [Bool.not_eq_true] at hall
      rw [hall]
      rw [takeWhile_append_of_stop _ _ _ (by rw [all_pairMap]; exact hall)]
      simp

theorem save_archive_eq (fails : WebResource → Bool) (inside : String) : ∀ a : WebArchive,
    save_archive fails inside a
      = (((resourceList a).map (fun r => (inside, r))).takeWhile (fun p => !(fails p.2)),
         (resourceList a).all (fun r => !(fails r))) := by
  apply WebArchive.nestedInd
  intro mr subs frames IH
  have hAL : saveArchiveList fails inside (frames.getD [])
      = (((resourceListList (frames.getD [])).map (fun r => (inside, r))).takeWhile
           (fun p => !(fails p.2)),
         (resourceListList (frames.getD [])).all (fun r => !(fails r))) := by
    apply saveArchiveList_eq
    intro b hb
    cases frames with
    | none => simp at hb
    | some fs => exact IH fs rfl b hb
  clear IH
  have hrl : resourceList (.mk mr subs frames)
      = mr :: (subs.getD [] ++ resourceListList (frames.getD [])) := by
    rw [resourceList.eq_def]; cases subs <;> cases frames <;> rfl
  by_cases hmr : fails mr
  · cases subs <;> cases frames <;>
      simp [save_archive.eq_def, resourceList.eq_def, save, hmr, List.takeWhile_cons]
  · cases subs with
    | none =>
      cases frames with
      | none =>
        simp [save_archive.eq_def, resourceList.eq_def, save, hmr, saveList_eq,
          saveArchiveList, List.takeWhile_cons]
      | some fs =>
        simp only [Option.getD_some] at hAL
        simp [save_archive.eq_def, resourceList.eq_def, save, hmr, saveList_eq, hAL,
          List.takeWhile_cons]
    | some rs =>
      by_cases hall : rs.all (fun r => !(fails r)) = true
      · cases frames with
        | none =>
          simp [save_archive.eq_def, resourceList.eq_def, save, hmr, saveList_eq, hall,
            saveArchiveList, List.takeWhile_cons, all_pairMap, takeWhile_of_all,
            takeWhile_append_of_all]
        | some fs =>
          simp only [Option.getD_some] at hAL
          simp [save_archive.eq_def, resourceList.eq_def, save, hmr, saveList_eq, hall, hAL,
            List.takeWhile_cons, all_pairMap, takeWhile_of_all, takeWhile_append_of_all]
      · rw [Bool.not_eq_true] at hall
        cases frames with
        | none =>
          simp [save_archive.eq_def, resourceList.eq_def, save, hmr, saveList_eq, hall,
            saveArchiveList, List.takeWhile_cons, all_pairMap, takeWhile_append_of_stop]
        | some fs =>
          simp only [Option.getD_some] at hAL
          simp [save_archive.eq_def, resourceList.eq_def, save, hmr, saveList_eq, hall, hAL,
            List.takeWhile_cons, all_pairMap, takeWhile_append_of_stop]

/-- C6: extraction is an in-order, fail-fast traversal. The write
events of `save_archive` are exactly the longest prefix of the
pre-order resource listing (main resource, then subresources in list
order, then the subframe archives in list order, recursively) on which
no save fails, every event carries the same base directory, and the
run succeeds exactly when no resource in the tree fails. In
particular, once one resource fails, no later resource or subframe
archive of the run is written. -/
theorem C6_fail_fast (fails : WebResource → Bool) (inside : String) (a : WebArchive) :
    save_archive fails inside a
      = (((resourceList a).map (fun r => (inside, r))).takeWhile (fun p => !(fails p.2)),
         (resourceList a).all (fun r => !(fails r))) :=
  save_archive_eq fails inside a

/-! Step lemmas for the resource entry loop. Each rewrites one visited
entry; keeping one recursive occurrence per step avoids unfolding the
dead branches of the loop body. -/

theorem dre_nil (st : ResState) : decodeResourceEntries [] st = .ok st := rfl

theorem dre_data (rest : List (String × PValue)) (st : ResState) (bs : List Nat)
    (h : st.data = none) :
    decodeResourceEntries (("WebResourceData", .data bs) :: rest) st
      = decodeResourceEntries rest { st with data := some bs } := by
  obtain ⟨sd, su, sf, sm, ste, sr⟩ := st
  dsimp only at h
  subst h
  rfl

theorem dre_url (rest : List (String × PValue)) (st : ResState) (u : String)
    (h : st.url = none) :
    decodeResourceEntries (("WebResourceURL", .string u) :: rest) st
      = decodeResourceEntries rest { st with url := some u } := by
  obtain ⟨sd, su, sf, sm, ste, sr⟩ := st
  dsimp only at h
  subst h
  rfl

theorem dre_frame (rest : List (String × PValue)) (st : ResState) (v : PValue)
    (o : Option String) (h : st.frame_name = none) (hv : emptyStringAsNone v = .ok o) :
    decodeResourceEntries (("WebResourceFrameName", v) :: rest) st
      = decodeResourceEntries rest { st with frame_name := some o } := by
  obtain ⟨sd, su, sf, sm, ste, sr⟩ := st
  dsimp only at h ⊢
  subst h
  show (match emptyStringAsNone v with
        | .error e => Except.error e
        | .ok o2 => decodeResourceEntries rest ⟨sd, su, some o2, sm, ste, sr⟩) = _
  rw [hv]

theorem dre_mime (rest : List (String × PValue)) (st : ResState) (m : String)
    (h : st.mime_type = none) :
    decodeResourceEntries (("WebResourceMIMEType", .string m) :: rest) st
      = decodeResourceEntries rest { st with mime_type := some m } := by
  obtain ⟨sd, su, sf, sm, ste, sr⟩ := st
  dsimp only at h
  subst h
  rfl

theorem dre_text (rest : List (String × PValue)) (st : ResState) (v : PValue)
    (o : Option String) (h : st.text_encoding_name = none)
    (hv : emptyStringAsNone v = .ok o) :
    decodeResourceEntries (("WebResourceTextEncodingName", v) :: rest) st
      = decodeResourceEntries rest { st with text_encoding_name := some o } := by
  obtain ⟨sd, su, sf, sm, ste, sr⟩ := st
  dsimp only at h ⊢
  subst h
  show (match emptyStringAsNone v with
        | .error e => Except.error e
        | .ok o2 => decodeResourceEntries rest ⟨sd, su, sf, sm, some o2, sr⟩) = _
  rw [hv]

theorem dre_resp (rest : List (String × PValue)) (st : ResState) (bs : List Nat)
    (h : st.response = none) :
    decodeResourceEntries (("WebResourceResponse", .data bs) :: rest) st
      = decodeResourceEntries rest { st with response := some bs } := by
  obtain ⟨sd, su, sf, sm, ste, sr⟩ := st
  dsimp only at h
  subst h
  rfl

/-! Step lemmas for the archive entry loop. -/

theorem dae_nil (m : Option WebResource) (s : Option (List WebResource))
    (f : Option (List WebArchive)) : decodeArchiveEntries [] m s f = .ok (m, s, f) := rfl

theorem dae_cons (k : String) (v : PValue) (rest : List (String × PValue))
    (m : Option WebResource) (s : Option (List WebResource)) (f : Option (List WebArchive)) :
    decodeArchiveEntries ((k, v) :: rest) m s f
      = (match archiveEntryStep k v m s f (decodeFramesValue v) with
         | .error e => .error e
         | .ok (m2, s2, f2) => decodeArchiveEntries rest m2 s2 f2) := by
  rw [decodeArchiveEntries]

theorem decodeFramesValue_array (vs : List PValue) :
    decodeFramesValue (.array vs) = decodeArchiveList vs := by
  rw [decodeFramesValue]

theorem step_main (v : PValue) (s : Option (List WebResource))
    (f : Option (List WebArchive)) (fr : Except SchemaError (List WebArchive)) :
    archiveEntryStep "WebMainResource" v none s f fr
      = (match decodeResource v with
         | .error e => .error e
         | .ok r => .ok (some r, s, f)) := rfl

theorem step_subs (vs : List PValue) (m : Option WebResource)
    (f : Option (List WebArchive)) (fr : Except SchemaError (List WebArchive)) :
    archiveEntryStep "WebSubresources" (.array vs) m none f fr
      = (match decodeResourceList vs with
         | .error e => .error e
         | .ok rs => .ok (m, some rs, f)) := rfl

theorem step_frames (v : PValue) (m : Option WebResource)
    (s : Option (List WebResource)) (fr : Except SchemaError (List WebArchive)) :
    archiveEntryStep "WebSubframeArchives" v m s none fr
      = (match fr with
         | .error e => .error e
         | .ok fs => .ok (m, s, some fs)) := rfl

theorem dae_main (rest : List (String × PValue)) (v : PValue)
    (s : Option (List WebResource)) (f : Option (List WebArchive)) (r : WebResource)
    (h : decodeResource v = .ok r) :
    decodeArchiveEntries (("WebMainResource", v) :: rest) none s f
      = decodeArchiveEntries rest (some r) s f := by
  rw [dae_cons, step_main, h]

theorem dae_subs (rest : List (String × PValue)) (vs : List PValue)
    (m : Option WebResource) (f : Option (List WebArchive)) (rs : List WebResource)
    (h : decodeResourceList vs = .ok rs) :
    decodeArchiveEntries (("WebSubresources", .array vs) :: rest) m none f
      = decodeArchiveEntries rest m (some rs) f := by
  rw [dae_cons, step_subs, h]

theorem dae_frames (rest : List (String × PValue)) (vs : List PValue)
    (m : Option WebResource) (s : Option (List WebResource)) (fs : List WebArchive)
    (h : decodeArchiveList vs = .ok fs) :
    decodeArchiveEntries (("WebSubframeArchives", .array vs) :: rest) m s none
      = decodeArchiveEntries rest m s (some fs) := by
  rw [dae_cons, step_frames, decodeFramesValue_array, h]

/-! Round trip of the codec on values without present but empty
adapter fields. -/

theorem emptyStringAsNone_of_ne (x : String) (hx : x ≠ "") :
    emptyStringAsNone (.string x) = .ok (some x) := by
  rw [emptyStringAsNone, if_neg hx]

theorem decodeResource_encodeResource (r : WebResource)
    (hf : r.frame_name ≠ some "") (ht : r.text_encoding_name ≠ some "") :
    decodeResource (encodeResource r) = .ok r := by
  obtain ⟨d, u, fn, mt, te, rsp⟩ := r
  simp only [ne_eq] at hf ht
  cases fn with
  | none =>
    cases te with
    | none =>
      cases rsp <;>
        simp [encodeResource, optEntry, decodeResource, dre_data, dre_url, dre_mime,
          dre_resp, dre_nil, initResState]
    | some x =>
      have hx : x ≠ "" := by intro hx0; exact ht (by rw [hx0])
      cases rsp <;>
        simp [encodeResource, optEntry, decodeResource, dre_data, dre_url, dre_mime,
          dre_text, dre_resp, dre_nil, initResState, emptyStringAsNone_of_ne, hx]
  | some y =>
    have hy : y ≠ "" := by intro hy0; exact hf (by rw [hy0])
    cases te with
    | none =>
      cases rsp <;>
        simp [encodeResource, optEntry, decodeResource, dre_data, dre_url, dre_mime,
          dre_frame, dre_resp, dre_nil, initResState, emptyStringAsNone_of_ne, hy]
    | some x =>
      have hx : x ≠ "" := by intro hx0; exact ht (by rw [hx0])
      cases rsp <;>
        simp [encodeResource, optEntry, decodeResource, dre_data, dre_url, dre_mime,
          dre_frame, dre_text, dre_resp, dre_nil, initResState, emptyStringAsNone_of_ne, hx, hy]

theorem decodeResourceList_encode (rs : List WebResource)
    (H : ∀ r ∈ rs, WebResource.noEmptyOpt r = true) :
    decodeResourceList (rs.map encodeResource) = .ok rs := by
  induction rs with
  | nil => rfl
  | cons r rs ih =>
    have h1 := H r (by simp)
    simp only [WebResource.noEmptyOpt, Bool.and_eq_true, Bool.not_eq_true', beq_eq_false_iff_ne, ne_eq] at h1
    rw [List.map_cons, decodeResourceList,
      decodeResource_encodeResource r h1.1 h1.2, ih (fun c hc => H c (by simp [hc]))]

theorem decodeArchiveList_encode (fs : List WebArchive)
    (H : ∀ a ∈ fs, decodeArchive (encodeArchive a) = .ok a) :
    decodeArchiveList (encodeArchiveList fs) = .ok fs := by
  induction fs with
  | nil => rfl
  | cons a as ih =>
    rw [encodeArchiveList, decodeArchiveList, H a (by simp),
      ih (fun c hc => H c (by simp [hc]))]

theorem noEmptyArchiveList_forall (fs : List WebArchive)
    (h : noEmptyArchiveList fs = true) : ∀ a ∈ fs, noEmptyArchive a = true := by
  induction fs with
  | nil => simp
  | cons a as ih =>
    rw [noEmptyArchiveList, Bool.and_eq_true] at h
    intro b hb
    rcases List.mem_cons.mp hb with hb1 | hb2
    · rw [hb1]; exact h.1
    · exact ih h.2 b hb2

theorem decodeArchive_encodeArchive : ∀ a : WebArchive, noEmptyArchive a = true →
    decodeArchive (encodeArchive a) = .ok a := by
  apply WebArchive.nestedInd
  intro mr subs frames IH hne
  rw [noEmptyArchive.eq_def] at hne
  simp only [Bool.and_eq_true] at hne
  obtain ⟨⟨hmr, hsubs⟩, hframes⟩ := hne
  simp only [WebResource.noEmptyOpt, Bool.and_eq_true, Bool.not_eq_true', beq_eq_false_iff_ne, ne_eq] at hmr
  have hmain := decodeResource_encodeResource mr hmr.1 hmr.2
  cases subs with
  | none =>
    cases frames with
    | none =>
      rw [encodeArchive.eq_def]
      simp only [List.append_nil, List.nil_append, List.cons_append]
      rw [decodeArchive, dae_main _ _ _ _ _ hmain, dae_nil]
    | some fs =>
      have hfs := decodeArchiveList_encode fs
        (fun b hb => IH fs rfl b hb (noEmptyArchiveList_forall fs hframes b hb))
      rw [encodeArchive.eq_def]
      simp only [List.append_nil, List.nil_append, List.cons_append]
      rw [decodeArchive, dae_main _ _ _ _ _ hmain, dae_frames _ _ _ _ _ hfs, dae_nil]
  | some rs =>
    have hrs := decodeResourceList_encode rs (by
      intro c hc
      exact (List.all_eq_true.mp hsubs) c hc)
    cases frames with
    | none =>
      rw [encodeArchive.eq_def]
      simp only [List.append_nil, List.nil_append, List.cons_append]
      rw [decodeArchive, dae_main _ _ _ _ _ hmain, dae_subs _ _ _ _ _ hrs, dae_nil]
    | some fs =>
      have hfs := decodeArchiveList_encode fs
        (fun b hb => IH fs rfl b hb (noEmptyArchiveList_forall fs hframes b hb))
      rw [encodeArchive.eq_def]
      simp only [List.append_nil, List.nil_append, List.cons_append]
      rw [decodeArchive, dae_main _ _ _ _ _ hmain, dae_subs _ _ _ _ _ hrs,
        dae_frames _ _ _ _ _ hfs, dae_nil]

/-! Claim C1: the round trip law. As stated over every archive it
fails, because a present but empty `frame_name` or
`text_encoding_name` is written to the wire as an empty string, which
the decoder normalizes back to absent. The law holds for every
archive with no present but empty adapter field. -/

/-- C1 counterexample: for the archive whose main resource carries
`text_encoding_name = some ""`, decoding the encoded document does not
give back the original value (the field comes back absent). -/
theorem C1_round_trip_counterexample :
    decodeArchive (encodeArchive
        (.mk ⟨[], "about:hello", none, "text/plain", some "", none⟩ none none))
      ≠ .ok (.mk ⟨[], "about:hello", none, "text/plain", some "", none⟩ none none) := by
  rw [show decodeArchive (encodeArchive
        (.mk ⟨[], "about:hello", none, "text/plain", some "", none⟩ none none))
      = .ok (.mk ⟨[], "about:hello", none, "text/plain", none, none⟩ none none) from rfl]
  simp

/-- C1, amended: for every archive in which no `frame_name` or
`text_encoding_name` anywhere in the tree is a present but empty
string, decoding the encoded document yields the archive back exactly,
including recursive equality of nested subframe archives and the order
of the subresource and subframe archive lists. -/
theorem C1_round_trip (a : WebArchive) (h : noEmptyArchive a = true) :
    decodeArchive (encodeArchive a) = .ok a :=
  decodeArchive_encodeArchive a h

/-- Witness for C1 on an archive with a subresource and a nested
subframe archive. -/
theorem C1_round_trip_witness :
    noEmptyArchive
        (.mk ⟨[104, 105], "http://x/", none, "text/html", some "UTF-8", none⟩
          (some [⟨[1], "http://x/a.png", none, "image/png", none, some [2]⟩])
          (some [.mk ⟨[], "http://x/f", some "frame1", "text/html", none, none⟩ none none]))
        = true ∧
    decodeArchive (encodeArchive
        (.mk ⟨[104, 105], "http://x/", none, "text/html", some "UTF-8", none⟩
          (some [⟨[1], "http://x/a.png", none, "image/png", none, some [2]⟩])
          (some [.mk ⟨[], "http://x/f", some "frame1", "text/html", none, none⟩ none none])))
      = .ok (.mk ⟨[104, 105], "http://x/", none, "text/html", some "UTF-8", none⟩
          (some [⟨[1], "http://x/a.png", none, "image/png", none, some [2]⟩])
          (some [.mk ⟨[], "http://x/f", some "frame1", "text/html", none, none⟩ none none])) :=
  ⟨by decide,
    C1_round_trip
      (.mk ⟨[104, 105], "http://x/", none, "text/html", some "UTF-8", none⟩
        (some [⟨[1], "http://x/a.png", none, "image/png", none, some [2]⟩])
        (some [.mk ⟨[], "http://x/f", some "frame1", "text/html", none, none⟩ none none]))
      (by decide)⟩

/-! One step unfolding of the entry loops, proved definitionally, for
reasoning about loops over symbolic keys. -/

theorem dre_cons (k : String) (v : PValue) (rest : List (String × PValue)) (st : ResState) :
    decodeResourceEntries ((k, v) :: rest) st
      = (if k = "WebResourceData" then
           match st.data, v with
           | some _, _ => .error (.duplicateField k)
           | none, .data bs => decodeResourceEntries rest { st with data := some bs }
           | none, _ => .error .typeError
         else if k = "WebResourceURL" then
           match st.url, v with
           | some _, _ => .error (.duplicateField k)
           | none, .string s => decodeResourceEntries rest { st with url := some s }
           | none, _ => .error .typeError
         else if k = "WebResourceFrameName" then
           match st.frame_name with
           | some _ => .error (.duplicateField k)
           | none =>
             match emptyStringAsNone v with
             | .error e => .error e
             | .ok o => decodeResourceEntries rest { st with frame_name := some o }
         else if k = "WebResourceMIMEType" then
           match st.mime_type, v with
           | some _, _ => .error (.duplicateField k)
           | none, .string s => decodeResourceEntries rest { st with mime_type := some s }
           | none, _ => .error .typeError
         else if k = "WebResourceTextEncodingName" then
           match st.text_encoding_name with
           | some _ => .error (.duplicateField k)
           | none =>
             match emptyStringAsNone v with
             | .error e => .error e
             | .ok o => decodeResourceEntries rest { st with text_encoding_name := some o }
         else if k = "WebResourceResponse" then
           match st.response, v with
           | some _, _ => .error (.duplicateField k)
           | none, .data bs => decodeResourceEntries rest { st with response := some bs }
           | none, _ => .error .typeError
         else .error (.unknownField k)) := rfl

/-! Claim C7: optional lists are omitted, never emitted empty. -/

theorem archiveEntryStep_ok_shape (k : String) (v : PValue) (m : Option WebResource)
    (s : Option (List WebResource)) (f : Option (List WebArchive))
    (fr : Except SchemaError (List WebArchive))
    (m2 : Option WebResource) (s2 : Option (List WebResource)) (f2 : Option (List WebArchive))
    (h : archiveEntryStep k v m s f fr = .ok (m2, s2, f2)) :
    (k = "WebMainResource" ∨ k = "WebSubresources" ∨ k = "WebSubframeArchives") ∧
    (k ≠ "WebMainResource" → m2 = m) ∧
    (k ≠ "WebSubresources" → s2 = s) ∧
    (k ≠ "WebSubframeArchives" → f2 = f) ∧
    (k = "WebMainResource" → ∃ r, decodeResource v = .ok r ∧ m2 = some r) ∧
    (k = "WebSubresources" → ∃ vs rs, v = .array vs ∧ decodeResourceList vs = .ok rs) ∧
    (k = "WebSubframeArchives" → ∃ fs, fr = .ok fs ∧ f2 = some fs) := by
  by_cases h1 : k = "WebMainResource"
  · subst h1
    rw [archiveEntryStep.eq_def, if_pos rfl] at h
    cases m with
    | some _ => exact absurd h (by simp)
    | none =>
      cases hr : decodeResource v with
      | error e => rw [hr] at h; exact absurd h (by simp)
      | ok r =>
        rw [hr] at h
        simp only [Except.ok.injEq, Prod.mk.injEq] at h
        obtain ⟨e1, e2, e3⟩ := h
        refine ⟨Or.inl rfl, by simp, fun _ => e2.symm, fun _ => e3.symm,
          fun _ => ⟨r, rfl, e1.symm⟩, by simp, by simp⟩
  · by_cases h2 : k = "WebSubresources"
    · subst h2
      rw [archiveEntryStep.eq_def, if_neg (by decide), if_pos rfl] at h
      cases s with
      | some _ => exact absurd h (by simp)
      | none =>
        cases v with
        | array vs =>
          dsimp only at h
          cases hr : decodeResourceList vs with
          | error e => rw [hr] at h; exact absurd h (by simp)
          | ok rs =>
            rw [hr] at h
            simp only [Except.ok.injEq, Prod.mk.injEq] at h
            obtain ⟨e1, e2, e3⟩ := h
            refine ⟨Or.inr (Or.inl rfl), fun _ => e1.symm, by simp, fun _ => e3.symm,
              by simp, fun _ => ⟨vs, rs, rfl, hr⟩, by simp⟩
        | string s3 => exact absurd h (by simp)
        | data bs => exact absurd h (by simp)
        | dict es => exact absurd h (by simp)
    · by_cases h3 : k = "WebSubframeArchives"
      · subst h3
        rw [archiveEntryStep.eq_def, if_neg (by decide), if_neg (by decide), if_pos rfl] at h
        cases f with
        | some _ => exact absurd h (by simp)
        | none =>
          cases hr : fr with
          | error e => rw [hr] at h; exact absurd h (by simp)
          | ok fs =>
            rw [hr] at h
            simp only [Except.ok.injEq, Prod.mk.injEq] at h
            obtain ⟨e1, e2, e3⟩ := h
            refine ⟨Or.inr (Or.inr rfl), fun _ => e1.symm, fun _ => e2.symm, by simp,
              by simp, by simp, fun _ => ⟨fs, rfl, e3.symm⟩⟩
      · rw [archiveEntryStep.eq_def, if_neg h1, if_neg h2, if_neg h3] at h
        exact absurd h (by simp)

theorem dae_keeps_subs (entries : List (String × PValue))
    (hk : ∀ p ∈ entries, p.1 ≠ "WebSubresources") :
    ∀ m f t, decodeArchiveEntries entries m none f = .ok t → t.2.1 = none := by
  induction entries with
  | nil =>
    intro m f t h
    rw [dae_nil] at h
    cases h
    rfl
  | cons p rest ih =>
    obtain ⟨k, v⟩ := p
    intro m f t h
    have hk1 : k ≠ "WebSubresources" := hk (k, v) (by simp)
    have hkr : ∀ q ∈ rest, q.1 ≠ "WebSubresources" := fun q hq => hk q (by simp [hq])
    rw [dae_cons] at h
    cases hst : archiveEntryStep k v m none f (decodeFramesValue v) with
    | error e => rw [hst] at h; exact absurd h (by simp)
    | ok t2 =>
      obtain ⟨m2, s2, f2⟩ := t2
      rw [hst] at h
      have hs2 : s2 = none := ((archiveEntryStep_ok_shape _ _ _ _ _ _ _ _ _ hst).2.2.1) hk1
      subst hs2
      exact ih hkr _ _ _ h

theorem dae_keeps_frames (entries : List (String × PValue))
    (hk : ∀ p ∈ entries, p.1 ≠ "WebSubframeArchives") :
    ∀ m s t, decodeArchiveEntries entries m s none = .ok t → t.2.2 = none := by
  induction entries with
  | nil =>
    intro m s t h
    rw [dae_nil] at h
    cases h
    rfl
  | cons p rest ih =>
    obtain ⟨k, v⟩ := p
    intro m s t h
    have hk1 : k ≠ "WebSubframeArchives" := hk (k, v) (by simp)
    have hkr : ∀ q ∈ rest, q.1 ≠ "WebSubframeArchives" := fun q hq => hk q (by simp [hq])
    rw [dae_cons] at h
    cases hst : archiveEntryStep k v m s none (decodeFramesValue v) with
    | error e => rw [hst] at h; exact absurd h (by simp)
    | ok t2 =>
      obtain ⟨m2, s2, f2⟩ := t2
      rw [hst] at h
      have hf2 : f2 = none := ((archiveEntryStep_ok_shape _ _ _ _ _ _ _ _ _ hst).2.2.2.1) hk1
      subst hf2
      exact ih hkr _ _ _ h

/-- C7: encoding an archive whose subresource list is absent does not
emit the WebSubresources key at all, and decoding that encoded
document, whenever it succeeds, yields an archive whose subresource
list is again absent; the same holds for the subframe archive list and
the WebSubframeArchives key. -/
theorem C7_optional_list_omission (mr : WebResource) (s0 : Option (List WebResource))
    (f0 : Option (List WebArchive)) :
    "WebSubresources" ∉ dictKeys (encodeArchive (.mk mr none f0)) ∧
    (∀ a, decodeArchive (encodeArchive (.mk mr none f0)) = .ok a →
      a.subresources = none) ∧
    "WebSubframeArchives" ∉ dictKeys (encodeArchive (.mk mr s0 none)) ∧
    (∀ a, decodeArchive (encodeArchive (.mk mr s0 none)) = .ok a →
      a.subframe_archives = none) := by
  refine ⟨?_, ?_, ?_, ?_⟩
  · cases f0 <;> simp [encodeArchive.eq_def, dictKeys]
  · intro a h
    cases f0 with
    | none =>
      simp only [encodeArchive.eq_def, List.append_nil, List.nil_append] at h
      rw [decodeArchive] at h
      cases hL : decodeArchiveEntries [("WebMainResource", encodeResource mr)]
          none none none with
      | error e => rw [hL] at h; exact absurd h (by simp)
      | ok t =>
        obtain ⟨m, s, f⟩ := t
        have hs : s = none := dae_keeps_subs _
          (by intro p hp; simp at hp; subst hp; simp) none none (m, s, f) hL
        rw [hL] at h
        cases m with
        | none => exact absurd h (by simp)
        | some mr2 =>
          simp only [Except.ok.injEq] at h
          rw [← h, WebArchive.subresources, hs]
    | some fs =>
      simp only [encodeArchive.eq_def, List.append_nil, List.nil_append,
        List.cons_append] at h
      rw [decodeArchive] at h
      cases hL : decodeArchiveEntries [("WebMainResource", encodeResource mr),
          ("WebSubframeArchives", PValue.array (encodeArchiveList fs))] none none none with
      | error e => rw [hL] at h; exact absurd h (by simp)
      | ok t =>
        obtain ⟨m, s, f⟩ := t
        have hs : s = none := dae_keeps_subs _
          (by intro p hp; simp at hp; rcases hp with h1 | h1 <;> subst h1 <;> simp)
          none none (m, s, f) hL
        rw [hL] at h
        cases m with
        | none => exact absurd h (by simp)
        | some mr2 =>
          simp only [Except.ok.injEq] at h
          rw [← h, WebArchive.subresources, hs]
  · cases s0 <;> simp [encodeArchive.eq_def, dictKeys]
  · intro a h
    cases s0 with
    | none =>
      simp only [encodeArchive.eq_def, List.append_nil, List.nil_append] at h
      rw [decodeArchive] at h
      cases hL : decodeArchiveEntries [("WebMainResource", encodeResource mr)]
          none none none with
      | error e => rw [hL] at h; exact absurd h (by simp)
      | ok t =>
        obtain ⟨m, s, f⟩ := t
        have hf : f = none := dae_keeps_frames _
          (by intro p hp; simp at hp; subst hp; simp) none none (m, s, f) hL
        rw [hL] at h
        cases m with
        | none => exact absurd h (by simp)
        | some mr2 =>
          simp only [Except.ok.injEq] at h
          rw [← h, WebArchive.subframe_archives, hf]
    | some rs =>
      simp only [encodeArchive.eq_def, List.append_nil, List.nil_append,
        List.cons_append] at h
      rw [decodeArchive] at h
      cases hL : decodeArchiveEntries [("WebMainResource", encodeResource mr),
          ("WebSubresources", PValue.array (rs.map encodeResource))] none none none with
      | error e => rw [hL] at h; exact absurd h (by simp)
      | ok t =>
        obtain ⟨m, s, f⟩ := t
        have hf : f = none := dae_keeps_frames _
          (by intro p hp; simp at hp; rcases hp with h1 | h1 <;> subst h1 <;> simp)
          none none (m, s, f) hL
        rw [hL] at h
        cases m with
        | none => exact absurd h (by simp)
        | some mr2 =>
          simp only [Except.ok.injEq] at h
          rw [← h, WebArchive.subframe_archives, hf]

/-- Witness for C7 at a concrete archive with both lists absent. -/
theorem C7_optional_list_omission_witness :
    "WebSubresources" ∉ dictKeys (encodeArchive
        (.mk ⟨[7], "http://w/", none, "text/html", none, none⟩ none none)) ∧
    (decodeArchive (encodeArchive
        (.mk ⟨[7], "http://w/", none, "text/html", none, none⟩ none none))).isOk = true ∧
    (.mk ⟨[7], "http://w/", none, "text/html", none, none⟩ none none
      : WebArchive).subresources = none ∧
    "WebSubframeArchives" ∉ dictKeys (encodeArchive
        (.mk ⟨[7], "http://w/", none, "text/html", none, none⟩ none none)) :=
  ⟨(C7_optional_list_omission ⟨[7], "http://w/", none, "text/html", none, none⟩ none none).1,
    rfl,
    (C7_optional_list_omission ⟨[7], "http://w/", none, "text/html", none, none⟩ none none).2.1
      (.mk ⟨[7], "http://w/", none, "text/html", none, none⟩ none none) rfl,
    (C7_optional_list_omission ⟨[7], "http://w/", none, "text/html", none, none⟩ none none).2.2.1⟩

/-! Claim C3: empty-string adapter fields decode to absent. -/

theorem dre_keeps_te (entries : List (String × PValue)) :
    ∀ st st2, decodeResourceEntries entries st = .ok st2 →
      ∀ o, st.text_encoding_name = some o → st2.text_encoding_name = some o := by
  induction entries with
  | nil =>
    intro st st2 h o ho
    rw [dre_nil] at h
    cases h
    exact ho
  | cons p rest ih =>
    obtain ⟨k, v⟩ := p
    intro st st2 h o ho
    rw [dre_cons] at h
    repeat' split at h
    all_goals first
      | exact absurd h (by simp)
      | exact ih _ _ h _ ho
      | simp_all

theorem dre_keeps_fn (entries : List (String × PValue)) :
    ∀ st st2, decodeResourceEntries entries st = .ok st2 →
      ∀ o, st.frame_name = some o → st2.frame_name = some o := by
  induction entries with
  | nil =>
    intro st st2 h o ho
    rw [dre_nil] at h
    cases h
    exact ho
  | cons p rest ih =>
    obtain ⟨k, v⟩ := p
    intro st st2 h o ho
    rw [dre_cons] at h
    repeat' split at h
    all_goals first
      | exact absurd h (by simp)
      | exact ih _ _ h _ ho
      | simp_all

theorem dre_sets_te (entries : List (String × PValue)) :
    ∀ st st2, decodeResourceEntries entries st = .ok st2 →
      ("WebResourceTextEncodingName", PValue.string "") ∈ entries →
      st2.text_encoding_name = some none := by
  induction entries with
  | nil => intro st st2 h hm; exact absurd hm (by simp)
  | cons p rest ih =>
    obtain ⟨k, v⟩ := p
    intro st st2 h hm
    rcases List.mem_cons.mp hm with heq | hmem
    · obtain ⟨hk, hv⟩ := Prod.mk.injEq .. ▸ heq
      subst hk
      subst hv
      rw [dre_cons] at h
      rw [if_neg (by decide), if_neg (by decide), if_neg (by decide), if_neg (by decide),
        if_pos rfl] at h
      split at h
      · exact absurd h (by simp)
      · rw [show emptyStringAsNone (.string "") = .ok none from rfl] at h
        dsimp only at h
        exact dre_keeps_te rest _ _ h none rfl
    · rw [dre_cons] at h
      repeat' split at h
      all_goals first
        | exact absurd h (by simp)
        | exact ih _ _ h hmem
  
theorem dre_sets_fn (entries : List (String × PValue)) :
    ∀ st st2, decodeResourceEntries entries st = .ok st2 →
      ("WebResourceFrameName", PValue.string "") ∈ entries →
      st2.frame_name = some none := by
  induction entries with
  | nil => intro st st2 h hm; exact absurd hm (by simp)
  | cons p rest ih =>
    obtain ⟨k, v⟩ := p
    intro st st2 h hm
    rcases List.mem_cons.mp hm with heq | hmem
    · obtain ⟨hk, hv⟩ := Prod.mk.injEq .. ▸ heq
      subst hk
      subst hv
      rw [dre_cons] at h
      rw [if_neg (by decide), if_neg (by decide), if_pos rfl] at h
      split at h
      · exact absurd h (by simp)
      · rw [show emptyStringAsNone (.string "") = .ok none from rfl] at h
        dsimp only at h
        exact dre_keeps_fn rest _ _ h none rfl
    · rw [dre_cons] at h
      repeat' split at h
      all_goals first
        | exact absurd h (by simp)
        | exact ih _ _ h hmem

/-- C3: whenever a resource dictionary whose WebResourceTextEncodingName
or WebResourceFrameName key carries the empty string decodes
successfully, the resulting resource reports the corresponding field
as absent, not as an empty string. -/
theorem C3_absence_normalization (entries : List (String × PValue)) (r : WebResource)
    (h : decodeResource (.dict entries) = .ok r) :
    (("WebResourceTextEncodingName", PValue.string "") ∈ entries →
      r.text_encoding_name = none) ∧
    (("WebResourceFrameName", PValue.string "") ∈ entries → r.frame_name = none) := by
  rw [decodeResource] at h
  cases hL : decodeResourceEntries entries initResState with
  | error e => rw [hL] at h; exact absurd h (by simp)
  | ok st =>
    rw [hL] at h
    dsimp only at h
    split at h
    · exact absurd h (by simp)
    · split at h
      · exact absurd h (by simp)
      · split at h
        · exact absurd h (by simp)
        · simp only [Except.ok.injEq] at h
          constructor
          · intro hm
            have hte := dre_sets_te entries _ _ hL hm
            rw [← h]
            simp [hte]
          · intro hm
            have hfn := dre_sets_fn entries _ _ hL hm
            rw [← h]
            simp [hfn]

/-- Witness for C3 at a concrete resource document carrying both
adapter keys with empty strings. -/
theorem C3_absence_normalization_witness :
    decodeResource (.dict [("WebResourceData", PValue.data [1]),
        ("WebResourceURL", PValue.string "u"), ("WebResourceMIMEType", PValue.string "m"),
        ("WebResourceTextEncodingName", PValue.string ""),
        ("WebResourceFrameName", PValue.string "")])
      = .ok ⟨[1], "u", none, "m", none, none⟩ ∧
    (⟨[1], "u", none, "m", none, none⟩ : WebResource).text_encoding_name = none ∧
    (⟨[1], "u", none, "m", none, none⟩ : WebResource).frame_name = none :=
  ⟨rfl,
    (C3_absence_normalization [("WebResourceData", PValue.data [1]),
        ("WebResourceURL", PValue.string "u"), ("WebResourceMIMEType", PValue.string "m"),
        ("WebResourceTextEncodingName", PValue.string ""),
        ("WebResourceFrameName", PValue.string "")]
      ⟨[1], "u", none, "m", none, none⟩ rfl).1 (by simp),
    (C3_absence_normalization [("WebResourceData", PValue.data [1]),
        ("WebResourceURL", PValue.string "u"), ("WebResourceMIMEType", PValue.string "m"),
        ("WebResourceTextEncodingName", PValue.string ""),
        ("WebResourceFrameName", PValue.string "")]
      ⟨[1], "u", none, "m", none, none⟩ rfl).2 (by simp)⟩

/-! Claim C9: the MIME type is required at decode time. -/

theorem dre_keeps_mime (entries : List (String × PValue))
    (hk : ∀ p ∈ entries, p.1 ≠ "WebResourceMIMEType") :
    ∀ st st2, decodeResourceEntries entries st = .ok st2 →
      st.mime_type = none → st2.mime_type = none := by
  induction entries with
  | nil =>
    intro st st2 h hm
    rw [dre_nil] at h
    cases h
    exact hm
  | cons p rest ih =>
    obtain ⟨k, v⟩ := p
    intro st st2 h hm
    have hk1 : k ≠ "WebResourceMIMEType" := hk (k, v) (by simp)
    have hkr : ∀ q ∈ rest, q.1 ≠ "WebResourceMIMEType" := fun q hq => hk q (by simp [hq])
    rw [dre_cons] at h
    repeat' split at h
    all_goals first
      | exact absurd (show k = "WebResourceMIMEType" from by assumption) hk1
      | exact absurd h (by simp)
      | exact ih hkr _ _ h hm

/-- C9: every resource document without a WebResourceMIMEType key
fails to decode, and an archive document whose main resource lacks the
key produces no archive value. -/
theorem C9_mime_type_required (entries : List (String × PValue))
    (hk : ∀ p ∈ entries, p.1 ≠ "WebResourceMIMEType") :
    (∃ e, decodeResource (.dict entries) = .error e) ∧
    (∀ a, decodeArchive (.dict [("WebMainResource", PValue.dict entries)]) ≠ .ok a) := by
  have h1 : ∃ e, decodeResource (.dict entries) = .error e := by
    rw [decodeResource]
    cases hL : decodeResourceEntries entries initResState with
    | error e => exact ⟨e, rfl⟩
    | ok st =>
      have hm : st.mime_type = none := dre_keeps_mime entries hk _ _ hL rfl
      cases hd : st.data with
      | none => exact ⟨.missingField "WebResourceData", by simp [hd]⟩
      | some bs =>
        cases hu : st.url with
        | none => exact ⟨.missingField "WebResourceURL", by simp [hd, hu]⟩
        | some u => exact ⟨.missingField "WebResourceMIMEType", by simp [hd, hu, hm]⟩
  refine ⟨h1, ?_⟩
  obtain ⟨e, he⟩ := h1
  intro a h
  rw [decodeArchive, dae_cons, step_main, he] at h
  exact absurd h (by simp)

/-- Witness for C9 at a resource document with data and URL but no
MIME type key. -/
theorem C9_mime_type_required_witness :
    (∀ p ∈ ([("WebResourceData", PValue.data []), ("WebResourceURL", PValue.string "u")]
      : List (String × PValue)), p.1 ≠ "WebResourceMIMEType") ∧
    (∃ e, decodeResource (.dict [("WebResourceData", PValue.data []),
        ("WebResourceURL", PValue.string "u")]) = .error e) ∧
    (∀ a, decodeArchive (.dict [("WebMainResource",
        PValue.dict [("WebResourceData", PValue.data []),
          ("WebResourceURL", PValue.string "u")])]) ≠ .ok a) :=
  ⟨by simp,
    (C9_mime_type_required [("WebResourceData", PValue.data []),
        ("WebResourceURL", PValue.string "u")] (by simp)).1,
    (C9_mime_type_required [("WebResourceData", PValue.data []),
        ("WebResourceURL", PValue.string "u")] (by simp)).2⟩

/-! Claim C2: strict schema rejection. -/

theorem dre_ok_known (entries : List (String × PValue)) :
    ∀ st st2, decodeResourceEntries entries st = .ok st2 →
      ∀ p ∈ entries, resourceKeyOk p.1 = true := by
  induction entries with
  | nil => intro st st2 h p hp; exact absurd hp (by simp)
  | cons q rest ih =>
    obtain ⟨k, v⟩ := q
    intro st st2 h p hp
    rcases List.mem_cons.mp hp with hp1 | hp2
    · subst hp1
      rw [dre_cons] at h
      repeat' split at h
      all_goals first
        | exact absurd h (by simp)
        | simp_all [resourceKeyOk]
    · rw [dre_cons] at h
      repeat' split at h
      all_goals first
        | exact absurd h (by simp)
        | exact ih _ _ h p hp2

theorem decodeResource_ok_noUnknown (v : PValue) (r : WebResource)
    (h : decodeResource v = .ok r) : resourceUnknown v = false := by
  cases v with
  | dict entries =>
    rw [decodeResource] at h
    cases hL : decodeResourceEntries entries initResState with
    | error e => rw [hL] at h; exact absurd h (by simp)
    | ok st =>
      have hall := dre_ok_known entries _ _ hL
      rw [resourceUnknown]
      rw [List.any_eq_false]
      intro p hp
      simp [hall p hp]
  | string s => rfl
  | data bs => rfl
  | array vs => rfl

theorem decodeResourceList_ok_noUnknown (vs : List PValue) (rs : List WebResource)
    (h : decodeResourceList vs = .ok rs) : vs.any resourceUnknown = false := by
  induction vs generalizing rs with
  | nil => rfl
  | cons w ws ih =>
    rw [decodeResourceList] at h
    cases hw : decodeResource w with
    | error e => rw [hw] at h; exact absurd h (by simp)
    | ok r =>
      rw [hw] at h
      cases hws : decodeResourceList ws with
      | error e => rw [hws] at h; exact absurd h (by simp)
      | ok rs2 =>
        rw [List.any_cons, decodeResource_ok_noUnknown w r hw, ih rs2 hws]
        rfl

theorem dal_ok_noUnknown (N : Nat)
    (H : ∀ w : PValue, sizeOf w ≤ N → ∀ a, decodeArchive w = .ok a →
      archiveUnknown w = false) :
    ∀ vs : List PValue, sizeOf vs ≤ N → ∀ fs, decodeArchiveList vs = .ok fs →
      archiveListUnknown vs = false := by
  intro vs
  induction vs with
  | nil => intro _ fs h; rfl
  | cons w ws ih =>
    intro hsz fs h
    have hw0 : sizeOf w ≤ N := by
      rw [List.cons.sizeOf_spec] at hsz; omega
    have hws0 : sizeOf ws ≤ N := by
      rw [List.cons.sizeOf_spec] at hsz; omega
    rw [decodeArchiveList] at h
    cases hw : decodeArchive w with
    | error e => rw [hw] at h; exact absurd h (by simp)
    | ok a =>
      rw [hw] at h
      cases hws : decodeArchiveList ws with
      | error e => rw [hws] at h; exact absurd h (by simp)
      | ok as =>
        rw [archiveListUnknown, H w hw0 a hw, ih hws0 as hws]
        rfl

theorem dae_ok_noUnknown (N : Nat)
    (H : ∀ w : PValue, sizeOf w ≤ N → ∀ a, decodeArchive w = .ok a →
      archiveUnknown w = false) :
    ∀ entries : List (String × PValue), sizeOf entries ≤ N → ∀ m s f t,
      decodeArchiveEntries entries m s f = .ok t →
      archiveEntriesUnknown entries = false := by
  intro entries
  induction entries with
  | nil => intro _ m s f t h; rfl
  | cons p rest ih =>
    obtain ⟨k, v⟩ := p
    intro hsz m s f t h
    have hv0 : sizeOf v ≤ N := by
      rw [List.cons.sizeOf_spec, Prod.mk.sizeOf_spec] at hsz; omega
    have hrest0 : sizeOf rest ≤ N := by
      rw [List.cons.sizeOf_spec] at hsz; omega
    rw [dae_cons] at h
    cases hst : archiveEntryStep k v m s f (decodeFramesValue v) with
    | error e => rw [hst] at h; exact absurd h (by simp)
    | ok t2 =>
      obtain ⟨m2, s2, f2⟩ := t2
      rw [hst] at h
      have hrest := ih hrest0 _ _ _ _ h
      obtain ⟨hkor, _, _, _, hmain, hsubs, hframes⟩ :=
        archiveEntryStep_ok_shape _ _ _ _ _ _ _ _ _ hst
      rw [archiveEntriesUnknown, hrest, Bool.or_false]
      rcases hkor with hk | hk | hk <;> subst hk
      · obtain ⟨r, hr, _⟩ := hmain rfl
        rw [show archiveEntryUnknown "WebMainResource" v (framesUnknownValue v)
            = resourceUnknown v from rfl]
        exact decodeResource_ok_noUnknown v r hr
      · obtain ⟨vs, rs, hv, hr⟩ := hsubs rfl
        subst hv
        rw [show archiveEntryUnknown "WebSubresources" (.array vs)
              (framesUnknownValue (.array vs))
            = vs.any resourceUnknown from rfl]
        exact decodeResourceList_ok_noUnknown vs rs hr
      · obtain ⟨fs, hfr, _⟩ := hframes rfl
        rw [show archiveEntryUnknown "WebSubframeArchives" v (framesUnknownValue v)
            = framesUnknownValue v from rfl]
        cases v with
        | array vs =>
          rw [decodeFramesValue] at hfr
          have hvs0 : sizeOf vs ≤ N := by
            rw [PValue.array.sizeOf_spec] at hv0; omega
          rw [framesUnknownValue]
          exact dal_ok_noUnknown N H vs hvs0 fs hfr
        | string s2 => rw [framesUnknownValue]; intro vs hvs; cases hvs
        | data bs => rw [framesUnknownValue]; intro vs hvs; cases hvs
        | dict es => rw [framesUnknownValue]; intro vs hvs; cases hvs

theorem decodeArchive_ok_noUnknown : ∀ v a, decodeArchive v = .ok a →
    archiveUnknown v = false := by
  have key : ∀ N v, sizeOf (v : PValue) ≤ N → ∀ a, decodeArchive v = .ok a →
      archiveUnknown v = false := by
    intro N
    induction N with
    | zero =>
      intro v hv a h
      exfalso
      cases v <;>
        simp only [PValue.string.sizeOf_spec, PValue.data.sizeOf_spec,
          PValue.array.sizeOf_spec, PValue.dict.sizeOf_spec] at hv <;>
        omega
    | succ N ihN =>
      intro v hv a h
      cases v with
      | dict entries =>
        rw [decodeArchive] at h
        cases hL : decodeArchiveEntries entries none none none with
        | error e => rw [hL] at h; exact absurd h (by simp)
        | ok t =>
          have hN : sizeOf entries ≤ N := by
            rw [PValue.dict.sizeOf_spec] at hv; omega
          rw [archiveUnknown]
          exact dae_ok_noUnknown N ihN entries hN none none none t hL
      | string s => rw [archiveUnknown]; intro es hes; cases hes
      | data bs => rw [archiveUnknown]; intro es hes; cases hes
      | array vs => rw [archiveUnknown]; intro es hes; cases hes
  exact fun v a h => key (sizeOf v) v (le_refl _) a h

/-- C2: decoding any document that contains a key outside the defined
field sets, at any nesting depth the schema reaches (the archive level
keys, the resource level keys of the main resource or of any
subresource, and recursively inside every subframe archive), fails
with a SchemaError and produces no archive value. -/
theorem C2_strict_schema_rejection (v : PValue) (h : archiveUnknown v = true) :
    ∃ e : SchemaError, decodeArchive v = .error e := by
  cases hd : decodeArchive v with
  | error e => exact ⟨e, rfl⟩
  | ok a =>
    rw [decodeArchive_ok_noUnknown v a hd] at h
    exact absurd h (by simp)

/-- Witness for C2: a document whose nested subframe archive carries
one extra key, two levels deep. -/
theorem C2_strict_schema_rejection_witness :
    archiveUnknown (.dict [("WebMainResource",
        .dict [("WebResourceData", PValue.data []), ("WebResourceURL", PValue.string "u"),
          ("WebResourceMIMEType", PValue.string "m")]),
      ("WebSubframeArchives", .array [.dict [("WebMainResource",
        .dict [("WebResourceData", PValue.data []), ("WebResourceURL", PValue.string "u"),
          ("WebResourceMIMEType", PValue.string "m"),
          ("SneakyKey", PValue.string "x")])]])]) = true ∧
    ∃ e : SchemaError, decodeArchive (.dict [("WebMainResource",
        .dict [("WebResourceData", PValue.data []), ("WebResourceURL", PValue.string "u"),
          ("WebResourceMIMEType", PValue.string "m")]),
      ("WebSubframeArchives", .array [.dict [("WebMainResource",
        .dict [("WebResourceData", PValue.data []), ("WebResourceURL", PValue.string "u"),
          ("WebResourceMIMEType", PValue.string "m"),
          ("SneakyKey", PValue.string "x")])]])]) = .error e :=
  ⟨by decide,
    C2_strict_schema_rejection (.dict [("WebMainResource",
        .dict [("WebResourceData", PValue.data []), ("WebResourceURL", PValue.string "u"),
          ("WebResourceMIMEType", PValue.string "m")]),
      ("WebSubframeArchives", .array [.dict [("WebMainResource",
        .dict [("WebResourceData", PValue.data []), ("WebResourceURL", PValue.string "u"),
          ("WebResourceMIMEType", PValue.string "m"),
          ("SneakyKey", PValue.string "x")])]])]) (by decide)⟩

end Webarchive
